import Mathlib

/-!
Verification development for the `stk` stacked-branch manager.

The Go sources under `internal/stack`, `internal/git`, `internal/pr` and
the CLI command files are shallowly embedded below.  Conventions:

* Go slices become `List`, Go maps become insertion-ordered association
  lists (`List (String × String)`), Go `error` becomes `Option String`
  (`some msg` = error) or `Except String α`.
* Wall-clock time (`time.Now()`) is modeled by an explicit `now : Nat`
  tick passed to the operations that set `Updated`; the snapshot's
  `TakenAt` timestamp is not modeled (no claim mentions it).
* `storage.Save` at manager level is modeled as a journal: every manager
  operation returns the list of stack values it passed to `Save`
  (`MResult.saves`).  The byte-level behaviour of `Save` itself is
  modeled separately by `saveOps` / `applyFsOp`.
* External Git is modeled by `GitSim`, a simulated Git whose
  `rebaseBranchOnto` succeeds while a success budget lasts and fails
  afterwards, exactly the simulated Git the spec's engine test describes.
-/

namespace Stk

/-- PR metadata stored in a stack file (`internal/stack/types.go`, type `PR`). -/
structure PRMeta where
  number : Nat
  url : String
  state : String
  title : String
deriving Repr, DecidableEq

/-- A branch entry of a stack (`internal/stack/types.go`, type `Branch`). -/
structure Branch where
  name : String
  upstream : String := ""
  pr : Option PRMeta := none
deriving Repr, DecidableEq

/-- Branch SHAs captured for atomic rollback (`internal/stack/types.go`,
type `Snapshot`).  The Go field `Refs` is a `map[string]string`; it is
modeled as an insertion-ordered association list (the map keys are the
pair keys).  `TakenAt` is not modeled. -/
structure Snapshot where
  refs : List (String × String)
deriving Repr, DecidableEq

/-- A stack of dependent branches (`internal/stack/types.go`, type `Stack`).
`Created`/`Updated` timestamps are `Nat` ticks. -/
structure Stack where
  version : Nat
  name : String
  base : String
  created : Nat
  updated : Nat
  branches : List Branch
  snapshot : Option Snapshot := none
deriving Repr, DecidableEq

/-- `NewBranch` from `types.go`. -/
def NewBranch (name : String) : Branch := { name := name }

/-- `NewStack` from `types.go`. -/
def NewStack (name base : String) (now : Nat) : Stack :=
  { version := 1, name := name, base := base, created := now, updated := now,
    branches := [] }

/-- Index of the first branch with the given name, `none` when absent.
`Stack.FindBranch` in `types.go` returns this index, or `-1` for `none`;
every caller only tests `idx < 0` or uses the found index, so the
`Option Nat` form is an exact rendering. -/
def findBranchIdx : List Branch → String → Option Nat
  | [], _ => none
  | b :: bs, n => if b.name = n then some 0 else (findBranchIdx bs n).map (· + 1)

/-- `Stack.FindBranch` (`types.go`): index or −1. -/
def Stack.FindBranch (s : Stack) (name : String) : Int :=
  match findBranchIdx s.branches name with
  | some i => (i : Int)
  | none => -1

/-- `Stack.HasBranch` (`types.go`): `FindBranch(name) >= 0`. -/
def Stack.HasBranch (s : Stack) (name : String) : Bool :=
  0 ≤ s.FindBranch name

/-- `Stack.GetParent` (`types.go`). -/
def Stack.GetParent (s : Stack) (name : String) : String :=
  match findBranchIdx s.branches name with
  | none => s.base
  | some 0 => s.base
  | some (i + 1) => ((s.branches.getD i (NewBranch "")).name)

/-- Result of a manager operation: the stack as the operation left it
(Go mutates `*Stack` in place, so the post-state is returned even on the
error path), the journal of values handed to `storage.Save`, and the
returned error. -/
structure MResult where
  stack : Stack
  saves : List Stack
  err : Option String
deriving Repr, DecidableEq

/-- Insert an element after position `idx`
(Go `append(s[:idx+1], append([]Branch{b}, s[idx+1:]...)...)`). -/
def insertAfter (idx : Nat) (b : Branch) (l : List Branch) : List Branch :=
  l.take (idx + 1) ++ [b] ++ l.drop (idx + 1)

/-- Remove the element at position `idx`
(Go `append(s[:idx], s[idx+1:]...)`). -/
def removeAt (idx : Nat) (l : List Branch) : List Branch :=
  l.take idx ++ l.drop (idx + 1)

/-- `Manager.AddBranch` (`internal/stack/manager.go` lines 77–114).
Duplicates are rejected; for `afterBranch` empty or equal to the base the
code takes the first arm: a singleton list when the stack is empty,
otherwise `FindBranch(afterBranch)` (which is −1 whenever `afterBranch`
names no stack branch) decides between append-at-end and insert-after. -/
def addBranch (s : Stack) (branchName afterBranch : String) (now : Nat) : MResult :=
  if s.HasBranch branchName then
    ⟨s, [], some ("branch \"" ++ branchName ++ "\" already in stack")⟩
  else
    let branch := NewBranch branchName
    if afterBranch = "" ∨ afterBranch = s.base then
      let s' :=
        if s.branches.isEmpty then { s with branches := [branch] }
        else
          match findBranchIdx s.branches afterBranch with
          | none => { s with branches := s.branches ++ [branch] }
          | some idx => { s with branches := insertAfter idx branch s.branches }
      let s'' := { s' with updated := now }
      ⟨s'', [s''], none⟩
    else
      match findBranchIdx s.branches afterBranch with
      | none => ⟨s, [], some ("branch \"" ++ afterBranch ++ "\" not found in stack")⟩
      | some idx =>
        let s'' := { s with branches := insertAfter idx branch s.branches, updated := now }
        ⟨s'', [s''], none⟩

/-- `Manager.AppendBranch` (`manager.go` lines 117–125). -/
def appendBranch (s : Stack) (branchName : String) (now : Nat) : MResult :=
  if s.HasBranch branchName then
    ⟨s, [], some ("branch \"" ++ branchName ++ "\" already in stack")⟩
  else
    let s' := { s with branches := s.branches ++ [NewBranch branchName], updated := now }
    ⟨s', [s'], none⟩

/-- `Manager.RemoveBranch` (`manager.go` lines 128–137). -/
def removeBranch (s : Stack) (branchName : String) (now : Nat) : MResult :=
  match findBranchIdx s.branches branchName with
  | none => ⟨s, [], some ("branch \"" ++ branchName ++ "\" not found in stack")⟩
  | some idx =>
    let s' := { s with branches := removeAt idx s.branches, updated := now }
    ⟨s', [s'], none⟩

/-- `Manager.MoveBranch` (`manager.go` lines 140–169).  The branch is
removed first; only then is `afterBranch` looked up in the already
shortened list, and the not-found error path returns with the in-memory
stack still holding the shortened list (`stack.Branches` was reassigned
before the lookup) and nothing saved. -/
def moveBranch (s : Stack) (branchName afterBranch : String) (now : Nat) : MResult :=
  match findBranchIdx s.branches branchName with
  | none => ⟨s, [], some ("branch \"" ++ branchName ++ "\" not found in stack")⟩
  | some idx =>
    let branch := s.branches.getD idx (NewBranch branchName)
    let removed := removeAt idx s.branches
    let sMid := { s with branches := removed }
    if afterBranch = "" ∨ afterBranch = s.base then
      let s' := { sMid with branches := branch :: removed, updated := now }
      ⟨s', [s'], none⟩
    else
      match findBranchIdx removed afterBranch with
      | none => ⟨sMid, [], some ("branch \"" ++ afterBranch ++ "\" not found in stack")⟩
      | some newIdx =>
        let s' := { sMid with branches := insertAfter newIdx branch removed, updated := now }
        ⟨s', [s'], none⟩

/-- The ref list `TakeSnapshot` builds for the stack branches: a SHA per
branch via the injected lookup, stopping at the first failure
(`manager.go` lines 182–189). -/
def collectRefs (getSHA : String → Except String String) :
    List Branch → Except String (List (String × String))
  | [] => Except.ok []
  | b :: bs =>
    match getSHA b.name with
    | Except.error e => Except.error ("failed to get SHA for " ++ b.name ++ ": " ++ e)
    | Except.ok sha =>
      match collectRefs getSHA bs with
      | Except.error e => Except.error e
      | Except.ok rest => Except.ok ((b.name, sha) :: rest)

/-- `Manager.TakeSnapshot` (`manager.go` lines 172–197): SHA of the base
first, then of every branch; any failure returns before the stack is
touched or saved. -/
def takeSnapshot (s : Stack) (getSHA : String → Except String String) : MResult :=
  match getSHA s.base with
  | Except.error e => ⟨s, [], some ("failed to get SHA for " ++ s.base ++ ": " ++ e)⟩
  | Except.ok baseSha =>
    match collectRefs getSHA s.branches with
    | Except.error e => ⟨s, [], some e⟩
    | Except.ok pairs =>
      let s' := { s with snapshot := some { refs := (s.base, baseSha) :: pairs } }
      ⟨s', [s'], none⟩

/-- `Manager.ClearSnapshot` (`manager.go` lines 200–203). -/
def clearSnapshot (s : Stack) : MResult :=
  let s' := { s with snapshot := none }
  ⟨s', [s'], none⟩

/-! ## Simulated Git (the engine's external collaborator)

`GitSim` models the Git driver surface the rebase engine touches:
local refs (branch → SHA), the checked-out branch, and a
`rebase_branch_onto` that succeeds while `successBudget > 0` and fails
afterwards — the simulated Git of the spec's engine test.  A successful
rebase moves the branch ref to `newSha branch onto` (an injected
abstraction of the rewritten history) and logs the `(branch, onto)`
pair; a failed one leaves the refs untouched (the engine always runs
`rebase --abort` before rolling back).  The `rebase-merge` /
`rebase-apply` directory flags model the two paths
`IsRebaseInProgress` probes with `ls`. -/

/-- Association-list lookup (branch name → SHA). -/
def lookupRef : List (String × String) → String → Option String
  | [], _ => none
  | (k, v) :: rest, n => if k = n then some v else lookupRef rest n

/-- Association-list update: overwrite the binding if present, append it
otherwise. -/
def setRef : List (String × String) → String → String → List (String × String)
  | [], n, v => [(n, v)]
  | (k, w) :: rest, n, v =>
    if k = n then (k, v) :: rest else (k, w) :: setRef rest n v

/-- Simulated Git state. -/
structure GitSim where
  refs : List (String × String)
  current : String
  successBudget : Nat
  newSha : String → String → String
  rebaseLog : List (String × String) := []
  rebaseMergeDir : Bool := false
  rebaseApplyDir : Bool := false

/-- `Git.SHA` (`rev-parse`): the ref's SHA, or an error for an unknown ref. -/
def GitSim.shaOf (g : GitSim) (ref : String) : Except String String :=
  match lookupRef g.refs ref with
  | some sha => Except.ok sha
  | none => Except.error ("unknown revision " ++ ref)

/-- `Git.CheckoutSilent`: moves `current` when the branch exists; the
callers ignore its error. -/
def GitSim.checkoutSilent (g : GitSim) (branch : String) : GitSim :=
  if (lookupRef g.refs branch).isSome then { g with current := branch } else g

/-- `Git.RebaseAbort` (best-effort `rebase --abort`): no ref movement in
this model. -/
def GitSim.rebaseAbort (g : GitSim) : GitSim := g

/-- `Git.ResetBranchToSHA` (`git/branch` helpers): checkout the branch
then `reset --hard` it to the SHA; fails (leaving refs unchanged) when
the branch does not exist. -/
def GitSim.resetBranchToSHA (g : GitSim) (branch sha : String) : GitSim :=
  if (lookupRef g.refs branch).isSome then
    { g with refs := setRef g.refs branch sha, current := branch }
  else g

/-- `Git.RebaseBranchOnto` (`internal/git/rebase.go` lines 51–63):
checkout then rebase.  Succeeds while the budget lasts. -/
def GitSim.rebaseBranchOnto (g : GitSim) (branch onto : String) : GitSim × Bool :=
  if g.successBudget = 0 then ({ g with current := branch }, false)
  else
    ({ g with refs := setRef g.refs branch (g.newSha branch onto),
              current := branch,
              successBudget := g.successBudget - 1,
              rebaseLog := g.rebaseLog ++ [(branch, onto)] }, true)

/-- `Git.IsRebaseInProgress` (`internal/git/rebase.go` lines 38–47): true
iff `.git/rebase-merge` or `.git/rebase-apply` exists. -/
def GitSim.isRebaseInProgress (g : GitSim) : Bool :=
  g.rebaseMergeDir || g.rebaseApplyDir

/-! ## Rebase engine (`src/unnamed/part_001`, `rebaseStack` / `rollbackStack`) -/

/-- Outcome of the engine: final stack, final Git state, journal of
saved stack values, and the returned error. -/
structure EngineResult where
  stack : Stack
  git : GitSim
  saves : List Stack
  err : Option String

/-- The engine's rebase loop (`rebaseStack` lines 232–251): branch `i`
is rebased onto the base for `i = 0` and onto branch `i−1` otherwise;
the loop stops at the first failure. -/
def rebaseLoop (g : GitSim) (prev : String) : List Branch → GitSim × Bool
  | [] => (g, true)
  | b :: bs =>
    let r := g.rebaseBranchOnto b.name prev
    if r.2 then rebaseLoop r.1 b.name bs else (r.1, false)

/-- The reset loop of `rollbackStack` (`for branchName, sha := range
stk.Snapshot.Refs`): every captured ref except the base is reset to its
snapshot SHA. -/
def snapshotResets (base : String) (pairs : List (String × String)) (g : GitSim) : GitSim :=
  pairs.foldl (fun acc p => if p.1 = base then acc else acc.resetBranchToSHA p.1 p.2) g

/-- `rollbackStack` (`part_001` lines 265–299): abort any in-progress
rebase, reset every snapshot ref except the base to its captured SHA,
return to the original branch, clear the snapshot. -/
def rollbackStack (stk : Stack) (g : GitSim) (originalBranch : String) :
    Stack × GitSim × List Stack :=
  match stk.snapshot with
  | none => (stk, g, [])
  | some snap =>
    let g1 := g.rebaseAbort
    let g2 := snapshotResets stk.base snap.refs g1
    let g3 := if originalBranch ≠ "" then g2.checkoutSilent originalBranch else g2
    let cr := clearSnapshot stk
    (cr.stack, g3, cr.saves)

/-- `rebaseStack` (`part_001` lines 216–262): snapshot, rebase each
branch onto its predecessor, roll back on failure, clear the snapshot
and return to the original branch on success. -/
def rebaseStack (stk : Stack) (g : GitSim) : EngineResult :=
  if stk.branches.isEmpty then ⟨stk, g, [], none⟩
  else
    let originalBranch := g.current
    let snapRes := takeSnapshot stk g.shaOf
    match snapRes.err with
    | some e => ⟨snapRes.stack, g, snapRes.saves, some ("failed to take snapshot: " ++ e)⟩
    | none =>
      let stk1 := snapRes.stack
      let lr := rebaseLoop g stk1.base stk1.branches
      if lr.2 then
        let cr := clearSnapshot stk1
        let g' := if originalBranch ≠ "" then lr.1.checkoutSilent originalBranch else lr.1
        ⟨cr.stack, g', snapRes.saves ++ cr.saves, none⟩
      else
        let rb := rollbackStack stk1 lr.1 originalBranch
        ⟨rb.1, rb.2.1, snapRes.saves ++ rb.2.2, some "rebase failed"⟩

/-- The `(branch, onto)` pairs a fully successful engine run performs:
each branch rebased onto its predecessor (the base for the first). -/
def expectedRebases (base : String) : List String → List (String × String)
  | [] => []
  | n :: ns => (n, base) :: expectedRebases n ns

/-! ## Sync reconciler: the merged-branch loop (`src/unnamed/part_001`,
`runSync` lines 128–186)

The forge calls and stack mutations the loop performs are recorded as an
event trace in program order. -/

/-- Externally visible actions of the merged-branch loop. -/
inductive SyncEvent where
  | retarget (prNumber : Nat) (newBase : String)
  | removeCall (branch : String)
  | deleteLocal (branch : String)
deriving Repr, DecidableEq

/-- The inner `for i := idx+1 .. len-1` loop of the merged-branch
processing: `i` walks the positions after the merged branch, `prevName`
is `Branches[i-1].Name`, and a `Retarget` is issued only at `i = idx+1`
(the immediate child) and only when that branch has a PR number. -/
def downstreamRetargets (newBase : String) (idx : Nat) :
    Nat → String → List Branch → List SyncEvent
  | _, _, [] => []
  | i, prevName, b :: rest =>
    let evs :=
      match b.pr with
      | some p =>
        if 0 < p.number then
          let targetBase := if idx + 1 < i then prevName else newBase
          if i = idx + 1 then [SyncEvent.retarget p.number targetBase] else []
        else []
      | none => []
    evs ++ downstreamRetargets newBase idx (i + 1) b.name rest

/-- One iteration of the merged-branch loop (`runSync` lines 133–185):
reload the stack, locate the merged branch, retarget the immediate
child's PR when a provider is available, remove the merged branch
(saving), optionally delete the local branch. -/
def processOneMerged (deleteMerged providerPresent : Bool) (now : Nat)
    (s : Stack) (branchName : String) : Stack × List SyncEvent :=
  match findBranchIdx s.branches branchName with
  | none => (s, [])
  | some idx =>
    let retargetEvs :=
      if providerPresent then
        let newBase := if 0 < idx then (s.branches.getD (idx - 1) (NewBranch "")).name
                       else s.base
        downstreamRetargets newBase idx (idx + 1) branchName (s.branches.drop (idx + 1))
      else []
    let rres := removeBranch s branchName now
    let delEvs := if deleteMerged then [SyncEvent.deleteLocal branchName] else []
    (rres.stack, retargetEvs ++ [SyncEvent.removeCall branchName] ++ delEvs)

/-- The whole merged-branch loop: fold of `processOneMerged` over the
merged branch names collected in state order, concatenating traces. -/
def processMergedBranches (deleteMerged providerPresent : Bool) (now : Nat)
    (s : Stack) (merged : List String) : Stack × List SyncEvent :=
  merged.foldl
    (fun acc name =>
      let r := processOneMerged deleteMerged providerPresent now acc.1 name
      (r.1, acc.2 ++ r.2))
    (s, [])

/-! ## Submit reconciler: base-sync guard and push phase
(`src/unnamed/part_002`, `runSubmit` lines 55–78 and `checkBaseSynced`
lines 225–253)

The Git queries the guard makes are injected as pure functions; the
remainder of `runSubmit` (PR adoption/creation/update, lines 80–221)
is outside this phase and not modeled here. -/

/-- Git query surface used by the submit guard and push loop. -/
structure SubmitGit where
  remoteBranchExists : String → String → Bool
  shaOf : String → Except String String
  isAncestor : String → String → Bool
  commitCount : String → String → Nat
  pushErr : String → String → Bool → Option String

/-- The error message of the base-behind guard
(`fmt.Errorf` in `checkBaseSynced`), naming the commit count behind. -/
def baseBehindMsg (base : String) (count : Nat) : String :=
  "base branch " ++ base ++ " is " ++ toString count ++
    " commit(s) behind origin; run 'stk sync' first (use --force to submit anyway)"

/-- `checkBaseSynced` (`part_002` lines 225–253): errors only when the
remote base exists, both SHAs resolve, they differ, and the local SHA is
an ancestor of the remote one. -/
def checkBaseSynced (git : SubmitGit) (s : Stack) : Option String :=
  if !(git.remoteBranchExists "origin" s.base) then none
  else
    match git.shaOf s.base with
    | Except.error _ => none
    | Except.ok localSHA =>
      match git.shaOf ("origin/" ++ s.base) with
      | Except.error _ => none
      | Except.ok remoteSHA =>
        if localSHA = remoteSHA then none
        else if git.isAncestor localSHA remoteSHA then
          some (baseBehindMsg s.base (git.commitCount localSHA remoteSHA))
        else none

/-- Externally visible actions of the submit push phase. -/
inductive SubmitEvent where
  | push (branch : String)
deriving Repr, DecidableEq

/-- The push loop of `runSubmit` (lines 72–78): each branch is pushed
with `--force-with-lease`; the first failure aborts the whole command. -/
def pushLoop (git : SubmitGit) : List Branch → List SubmitEvent × Option String
  | [] => ([], none)
  | b :: rest =>
    match git.pushErr "origin" b.name true with
    | some e => ([SubmitEvent.push b.name], some ("failed to push " ++ b.name ++ ": " ++ e))
    | none =>
      let r := pushLoop git rest
      (SubmitEvent.push b.name :: r.1, r.2)

/-- `runSubmit` lines 55–78: empty-stack early exit, the base-synced
guard (skipped under `--force`), then the push loop. -/
def runSubmitPushPhase (git : SubmitGit) (force : Bool) (s : Stack) :
    List SubmitEvent × Option String :=
  if s.branches.isEmpty then ([], none)
  else if force then pushLoop git s.branches
  else
    match checkBaseSynced git s with
    | some e => ([], some e)
    | none => pushLoop git s.branches

/-! ## Stack-section renderer (`internal/pr/provider.go`,
`GenerateStackSection` lines 126–166) -/

/-- A forge PR as the `pr` package sees it (`provider.go`, type `PR`). -/
structure ProviderPR where
  number : Nat
  url : String := ""
  state : String
  title : String := ""
  body : String := ""
  head : String := ""
  base : String := ""
deriving Repr, DecidableEq

/-- `PRBranchInfo` (`provider.go`): branch name plus optional PR. -/
structure PRBranchInfo where
  name : String
  pr : Option ProviderPR := none
deriving Repr, DecidableEq

/-- The row-emitting loop of `GenerateStackSection` (`for i, b := range
branches`): `i` is the 0-based index, the printed position is `i+1`. -/
def stackSectionRows (currentBranch : String) : Nat → List PRBranchInfo → String
  | _, [] => ""
  | i, b :: rest =>
    let num := toString (i + 1)
    let branchCell := b.name
    let prCell := match b.pr with
      | some p => "#" ++ toString p.number
      | none => "-"
    let status := match b.pr with
      | some p =>
        if p.state = "merged" then "✅ Merged"
        else if p.state = "closed" then "❌ Closed"
        else if p.state = "draft" then "📝 Draft"
        else "🔄 Open"
      | none => "📝 Pending"
    let row :=
      if b.name = currentBranch then
        "| **" ++ num ++ "** | **`" ++ branchCell ++ "`** | **" ++ prCell ++
          "** | **🔄 This PR** |\n"
      else
        "| " ++ num ++ " | `" ++ branchCell ++ "` | " ++ prCell ++ " | " ++ status ++ " |\n"
    row ++ stackSectionRows currentBranch (i + 1) rest

/-- `GenerateStackSection` (`provider.go` lines 126–166), the string
builder writes concatenated in program order. -/
def generateStackSection (stackName : String) (branches : List PRBranchInfo)
    (currentBranch : String) : String :=
  "\n---\n\n" ++
  "## 📚 Stack\n\n" ++
  ("This PR is part of the **" ++ stackName ++ "** stack:\n\n") ++
  "| # | Branch | PR | Status |\n" ++
  "|---|--------|-----|--------|\n" ++
  stackSectionRows currentBranch 0 branches ++
  "\n---\n" ++
  "*Managed by [stk](https://github.com/stefanaki/stk)*\n"

/-! Specification-side renderer, written from the claim's words: one row
per branch in order, 1-indexed position, branch in backticks, PR cell
`#N` or `-`, status mapped `merged → ✅ Merged`, `closed → ❌ Closed`,
`draft → 📝 Draft`, other → `🔄 Open`, absent → `📝 Pending`; the
focused row is bolded with status `🔄 This PR` regardless of PR state. -/

/-- Status cell from the claim's mapping table. -/
def specStatusCell : Option ProviderPR → String
  | none => "📝 Pending"
  | some p =>
    if p.state = "merged" then "✅ Merged"
    else if p.state = "closed" then "❌ Closed"
    else if p.state = "draft" then "📝 Draft"
    else "🔄 Open"

/-- PR cell from the claim's words: `#N` or `-` when absent. -/
def specPRCell : Option ProviderPR → String
  | none => "-"
  | some p => "#" ++ toString p.number

/-- Row at 1-indexed position `pos` from the claim's words. -/
def specRow (focused : String) (pos : Nat) (b : PRBranchInfo) : String :=
  if b.name = focused then
    "| **" ++ toString pos ++ "** | **`" ++ b.name ++ "`** | **" ++ specPRCell b.pr ++
      "** | **🔄 This PR** |\n"
  else
    "| " ++ toString pos ++ " | `" ++ b.name ++ "` | " ++ specPRCell b.pr ++ " | " ++
      specStatusCell b.pr ++ " |\n"

/-- 1-indexed positions `start, start+1, …` for a table of `len` rows. -/
def posList (start len : Nat) : List Nat :=
  (List.range len).map (fun k => start + k)

/-- The stack section as the claim describes it: header, one `specRow`
per branch at positions `1 … n`, footer. -/
def stackSectionSpec (stackName : String) (branches : List PRBranchInfo)
    (focused : String) : String :=
  "\n---\n\n" ++
  "## 📚 Stack\n\n" ++
  ("This PR is part of the **" ++ stackName ++ "** stack:\n\n") ++
  "| # | Branch | PR | Status |\n" ++
  "|---|--------|-----|--------|\n" ++
  (List.zipWith (specRow focused) (posList 1 branches.length) branches).foldr
    (· ++ ·) "" ++
  "\n---\n" ++
  "*Managed by [stk](https://github.com/stefanaki/stk)*\n"

/-! ## Storage `Save` at filesystem level (`internal/stack/storage.go`
lines 49–65)

`Save` marshals the stack and calls `os.WriteFile(path, data, 0644)`,
which opens the destination with `O_WRONLY|O_CREATE|O_TRUNC` and then
writes the bytes: first the file is truncated, then the data lands.  The
primitive filesystem steps are modeled below; `renameFile` and
`fsyncFile` are the primitives an atomic replace-via-temp would use. -/

/-- Primitive filesystem operations. -/
inductive FsOp where
  | mkdirAll (path : String)
  | truncateCreate (path : String)
  | writeData (path : String) (data : String)
  | renameFile (src dst : String)
  | fsyncFile (path : String)
deriving Repr, DecidableEq

/-- A filesystem: path → file contents. -/
def FileSys := String → Option String

/-- Effect of one primitive step. -/
def applyFsOp (fs : FileSys) : FsOp → FileSys
  | FsOp.mkdirAll _ => fs
  | FsOp.truncateCreate p => fun q => if q = p then some "" else fs q
  | FsOp.writeData p d => fun q => if q = p then some d else fs q
  | FsOp.renameFile src dst => fun q =>
      if q = dst then fs src else if q = src then none else fs q
  | FsOp.fsyncFile _ => fs

/-- Run a sequence of primitive steps. -/
def runFsOps (fs : FileSys) (ops : List FsOp) : FileSys :=
  ops.foldl applyFsOp fs

/-- `Storage.stackPath`: `<gitDir>/stacks/<name>.yaml`. -/
def stackPath (gitDir name : String) : String :=
  gitDir ++ "/stacks/" ++ name ++ ".yaml"

/-- The primitive steps `Storage.Save` performs (`storage.go` lines
49–65): ensure the directory, then `os.WriteFile` in place — truncate
the stack file and write the marshalled bytes `data`.  No temp file, no
rename, no fsync. -/
def saveOps (gitDir : String) (s : Stack) (data : String) : List FsOp :=
  [FsOp.mkdirAll (gitDir ++ "/stacks"),
   FsOp.truncateCreate (stackPath gitDir s.name),
   FsOp.writeData (stackPath gitDir s.name) data]

end Stk

namespace Stk

/-! ## Supporting lemmas -/

theorem collectRefs_ok (getSHA : String → Except String String) :
    ∀ bs : List Branch, (∀ b ∈ bs, ∃ v, getSHA b.name = Except.ok v) →
      ∃ pairs, collectRefs getSHA bs = Except.ok pairs ∧
        pairs.map Prod.fst = bs.map (·.name) ∧
        ∀ p ∈ pairs, getSHA p.1 = Except.ok p.2 := by
  intro bs
  induction bs with
  | nil => intro _; exact ⟨[], rfl, rfl, by simp⟩
  | cons b rest ih =>
    intro h
    obtain ⟨v, hv⟩ := h b (by simp)
    obtain ⟨pairs, hp, hkeys, hvals⟩ := ih (fun b' hb' => h b' (by simp [hb']))
    refine ⟨(b.name, v) :: pairs, ?_, ?_, ?_⟩
    · simp [collectRefs, hv, hp]
    · simp [hkeys]
    · intro p hp'
      rcases List.mem_cons.mp hp' with h1 | h2
      · subst h1; exact hv
      · exact hvals p h2

theorem collectRefs_err (getSHA : String → Except String String) :
    ∀ bs : List Branch, (∃ b ∈ bs, ∃ e, getSHA b.name = Except.error e) →
      ∃ e, collectRefs getSHA bs = Except.error e := by
  intro bs
  induction bs with
  | nil => rintro ⟨b, hb, _⟩; simp at hb
  | cons b rest ih =>
    rintro ⟨b', hb', e', he'⟩
    rcases List.mem_cons.mp hb' with h1 | h2
    · subst h1
      exact ⟨"failed to get SHA for " ++ b'.name ++ ": " ++ e',
        by simp [collectRefs, he']⟩
    · cases hv : getSHA b.name with
      | error e =>
        exact ⟨"failed to get SHA for " ++ b.name ++ ": " ++ e,
          by simp [collectRefs, hv]⟩
      | ok v =>
        obtain ⟨e, he⟩ := ih ⟨b', h2, e', he'⟩
        exact ⟨e, by simp [collectRefs, hv, he]⟩

/-! ## Claim theorems -/

/-- C2: `AddBranch` with `after` equal to the empty string or to the
stack's base does NOT insert at position 0 when the stack is non-empty:
evaluated on the stack `main ⊢ [a]`, adding `b` with `after = ""` and
with `after = "main"` both append `b` at the END (`[a, b]`), not at
position 0 (`[b, a]`).  This exhibits the claim's failure at a concrete
input (the duplicate-rejection half does hold, also shown here). -/
theorem addBranch_appends_at_end_failing_input :
    (let s : Stack := { version := 1, name := "s", base := "main", created := 0,
                        updated := 0, branches := [NewBranch "a"] }
     (addBranch s "b" "" 7).err = none ∧
     (addBranch s "b" "" 7).stack.branches = [NewBranch "a", NewBranch "b"] ∧
     (addBranch s "b" "main" 7).stack.branches = [NewBranch "a", NewBranch "b"] ∧
     (addBranch s "b" "" 7).stack.branches ≠ [NewBranch "b", NewBranch "a"] ∧
     (addBranch s "a" "" 7).err.isSome = true) := by
  refine ⟨rfl, rfl, rfl, by decide, rfl⟩

/-- C3: self-move is NOT a successful no-op.  On the stack
`main ⊢ [a, b]`, `MoveBranch(stack, "a", after := "a")` first removes
`a`, then fails to find `a` in the shortened list: it returns an error,
saves nothing, and leaves the in-memory branch sequence as `[b]`. -/
theorem moveBranch_self_move_fails :
    (let s : Stack := { version := 1, name := "s", base := "main", created := 0,
                        updated := 0, branches := [NewBranch "a", NewBranch "b"] }
     (moveBranch s "a" "a" 5).err = some ("branch \"a\" not found in stack") ∧
     (moveBranch s "a" "a" 5).stack.branches = [NewBranch "b"] ∧
     (moveBranch s "a" "a" 5).saves = []) := by
  refine ⟨rfl, rfl, rfl⟩

/-- C10: when the branch is present but `after` is non-empty, differs
from the base, and names no branch of the shortened list (in particular
`after = name`), `MoveBranch` errors without saving while the in-memory
stack has already lost the branch. -/
theorem moveBranch_error_path_mutates (s : Stack) (name after : String) (now i : Nat)
    (hfind : findBranchIdx s.branches name = some i)
    (hne : after ≠ "") (hnb : after ≠ s.base)
    (hgone : findBranchIdx (removeAt i s.branches) after = none) :
    moveBranch s name after now =
      ⟨{ s with branches := removeAt i s.branches }, [],
       some ("branch \"" ++ after ++ "\" not found in stack")⟩ := by
  unfold moveBranch
  rw [hfind]
  simp only [hne, hnb, or_self, if_false, hgone]

/-- Witness for C10 at the concrete stack `main ⊢ [a, b]`, moving `b`
after itself. -/
theorem moveBranch_error_path_mutates_witness :
    (let s : Stack := { version := 1, name := "w10", base := "main", created := 0,
                        updated := 0, branches := [NewBranch "a", NewBranch "b"] }
     findBranchIdx s.branches "b" = some 1 ∧ ("b" : String) ≠ "" ∧ ("b" : String) ≠ s.base ∧
     findBranchIdx (removeAt 1 s.branches) "b" = none ∧
     moveBranch s "b" "b" 3 =
       ⟨{ s with branches := removeAt 1 s.branches }, [],
        some ("branch \"b\" not found in stack")⟩) := by
  refine ⟨rfl, by decide, by decide, rfl, ?_⟩
  exact moveBranch_error_path_mutates _ "b" "b" 3 1 rfl (by decide) (by decide) rfl

/-- C9: `TakeSnapshot` is atomic: if the SHA lookup fails for the base
or for any branch it returns an error with the stack unchanged and
nothing saved; if every lookup succeeds it saves, and the snapshot's ref
keys are exactly the base followed by every branch name in order. -/
theorem takeSnapshot_atomic (s : Stack) (getSHA : String → Except String String) :
    (((∃ e, getSHA s.base = Except.error e) ∨
        (∃ b ∈ s.branches, ∃ e, getSHA b.name = Except.error e)) →
      (takeSnapshot s getSHA).stack = s ∧ (takeSnapshot s getSHA).saves = [] ∧
        (takeSnapshot s getSHA).err.isSome = true) ∧
    (((∃ v, getSHA s.base = Except.ok v) ∧
        (∀ b ∈ s.branches, ∃ v, getSHA b.name = Except.ok v)) →
      (takeSnapshot s getSHA).err = none ∧
        (∃ snap, (takeSnapshot s getSHA).stack.snapshot = some snap ∧
          snap.refs.map Prod.fst = s.base :: s.branches.map (·.name)) ∧
        (takeSnapshot s getSHA).saves = [(takeSnapshot s getSHA).stack]) := by
  constructor
  · intro h
    rcases h with ⟨e, he⟩ | hbr
    · simp [takeSnapshot, he]
    · cases hb : getSHA s.base with
      | error e => simp [takeSnapshot, hb]
      | ok v =>
        obtain ⟨e, he⟩ := collectRefs_err getSHA s.branches hbr
        simp [takeSnapshot, hb, he]
  · rintro ⟨⟨v, hv⟩, hall⟩
    obtain ⟨pairs, hp, hkeys, _⟩ := collectRefs_ok getSHA s.branches hall
    refine ⟨by simp [takeSnapshot, hv, hp], ⟨⟨(s.base, v) :: pairs⟩, ?_, ?_⟩, ?_⟩
    · simp [takeSnapshot, hv, hp]
    · simp [hkeys]
    · simp [takeSnapshot, hv, hp]

/-- Witness for C9: a two-branch stack with a total SHA function
(success side) and one whose branch `y` has no SHA (failure side). -/
theorem takeSnapshot_atomic_witness :
    (let s : Stack := { version := 1, name := "w9", base := "main", created := 0,
                        updated := 0, branches := [NewBranch "x", NewBranch "y"] }
     let good : String → Except String String := fun n => Except.ok (n ++ "0")
     let bad : String → Except String String :=
       fun n => if n = "y" then Except.error "no sha" else Except.ok (n ++ "0")
     ((takeSnapshot s bad).stack = s ∧ (takeSnapshot s bad).saves = [] ∧
        (takeSnapshot s bad).err.isSome = true) ∧
     ((takeSnapshot s good).err = none ∧
        (∃ snap, (takeSnapshot s good).stack.snapshot = some snap ∧
          snap.refs.map Prod.fst = s.base :: s.branches.map (·.name)) ∧
        (takeSnapshot s good).saves = [(takeSnapshot s good).stack])) := by
  constructor
  · exact (takeSnapshot_atomic _ _).1
      (Or.inr ⟨NewBranch "y", by simp, "no sha", rfl⟩)
  · exact (takeSnapshot_atomic _ _).2
      ⟨⟨"main0", rfl⟩, by intro b hb; exact ⟨b.name ++ "0", rfl⟩⟩

/-- C4 (counterexample): `Save` is not torn-write safe.  With an
existing one-stack file holding `old-yaml`, interrupting the save of
`new-yaml` right after `os.WriteFile`'s truncating open leaves the stack
file empty — neither the old contents nor the complete new ones. -/
theorem save_torn_write_counterexample :
    (let fs0 : FileSys :=
       fun q => if q = stackPath ".git" "demo" then some "old-yaml" else none
     let s := NewStack "demo" "main" 0
     runFsOps fs0 ((saveOps ".git" s "new-yaml").take 2) (stackPath ".git" "demo")
         = some "" ∧
     fs0 (stackPath ".git" "demo") = some "old-yaml" ∧
     (some ("" : String) ≠ some ("old-yaml" : String)) ∧
     (some ("" : String) ≠ some ("new-yaml" : String))) := by
  refine ⟨rfl, rfl, by decide, by decide⟩

/-- Position lists peel off their head. -/
theorem posList_succ (s n : Nat) : posList s (n + 1) = s :: posList (s + 1) n := by
  simp only [posList, List.range_succ_eq_map, List.map_cons, Nat.add_zero, List.map_map]
  congr 1
  apply List.map_congr_left
  intro k _
  simp only [Function.comp_apply, Nat.succ_eq_add_one]
  omega

/-- The renderer's row loop emits exactly the claim's rows at 1-indexed
positions. -/
theorem stackSectionRows_eq_spec (cur : String) :
    ∀ (bs : List PRBranchInfo) (i : Nat),
      stackSectionRows cur i bs =
        (List.zipWith (specRow cur) (posList (i + 1) bs.length) bs).foldr (· ++ ·) "" := by
  intro bs
  induction bs with
  | nil => intro i; rfl
  | cons b rest ih =>
    intro i
    rw [List.length_cons, posList_succ, List.zipWith_cons_cons, List.foldr_cons, ← ih (i + 1)]
    by_cases hb : b.name = cur
    all_goals cases hp : b.pr
    all_goals simp [stackSectionRows, specRow, specPRCell, specStatusCell, hp, hb]

/-- Helper lemma: `pushLoop` over branches whose pushes all succeed
pushes each branch in order and returns no error. -/
theorem pushLoop_all_ok (git : SubmitGit) :
    ∀ bs : List Branch, (∀ b ∈ bs, git.pushErr "origin" b.name true = none) →
      pushLoop git bs = (bs.map (fun b => SubmitEvent.push b.name), none) := by
  intro bs
  induction bs with
  | nil => intro _; rfl
  | cons b rest ih =>
    intro h
    have hb := h b (by simp)
    rw [List.map_cons]
    simp [pushLoop, hb, ih (fun b' hb' => h b' (by simp [hb']))]

/-- Helper lemma: the downstream loop of the merged-branch processing
emits nothing once `i` has passed the immediate-child position. -/
theorem downstreamRetargets_past_child (newBase : String) (idx : Nat) :
    ∀ (bs : List Branch) (i : Nat) (prev : String), idx + 1 < i →
      downstreamRetargets newBase idx i prev bs = [] := by
  intro bs
  induction bs with
  | nil => intro i prev _; rfl
  | cons b rest ih =>
    intro i prev hi
    have hne : ¬(i = idx + 1) := by omega
    have htail := ih (i + 1) b.name (by omega)
    cases hp : b.pr with
    | none => simp [downstreamRetargets, hp, htail]
    | some p => simp [downstreamRetargets, hp, hne, htail]

/-- C8: `GenerateStackSection` equals the renderer the claim describes:
one row per branch in order at 1-indexed positions, branch name in
backticks, PR cell `#N` or `-`, status mapped merged/closed/draft/other
/absent as ✅ Merged, ❌ Closed, 📝 Draft, 🔄 Open, 📝 Pending, and the
focused row bolded with status `🔄 This PR` regardless of its PR state.
Both sides are plain functions of their arguments, so the renderer is
pure and deterministic. -/
theorem generateStackSection_eq_spec (stackName : String)
    (branches : List PRBranchInfo) (currentBranch : String) :
    generateStackSection stackName branches currentBranch =
      stackSectionSpec stackName branches currentBranch := by
  unfold generateStackSection stackSectionSpec
  rw [stackSectionRows_eq_spec]

/-- C7: the submit base-behind guard.  First half: with the remote base
present, both SHAs resolving, differing, and the local one an ancestor
of the remote one, `submit` without `--force` returns the error naming
the commit count behind and pushes no branch.  Second half: under
`--force`, or with equal local and remote SHAs, submit proceeds to push
every branch (shown with pushes succeeding). -/
theorem submit_base_behind_guard (git : SubmitGit) (s : Stack) (l r : String) :
    ((s.branches ≠ [] →
      git.remoteBranchExists "origin" s.base = true →
      git.shaOf s.base = Except.ok l →
      git.shaOf ("origin/" ++ s.base) = Except.ok r →
      l ≠ r → git.isAncestor l r = true →
      runSubmitPushPhase git false s =
        ([], some (baseBehindMsg s.base (git.commitCount l r)))) ∧
     (∀ force : Bool,
      (force = true ∨ (git.shaOf s.base = Except.ok l ∧
                       git.shaOf ("origin/" ++ s.base) = Except.ok l)) →
      (∀ b ∈ s.branches, git.pushErr "origin" b.name true = none) →
      runSubmitPushPhase git force s =
        (s.branches.map (fun b => SubmitEvent.push b.name), none))) := by
  constructor
  · intro hne hrem hl hr hdiff hanc
    have hguard : checkBaseSynced git s =
        some (baseBehindMsg s.base (git.commitCount l r)) := by
      simp [checkBaseSynced, hrem, hl, hr, hdiff, hanc]
    have hempty : s.branches.isEmpty = false := by
      simp [List.isEmpty_iff, hne]
    simp [runSubmitPushPhase, hempty, hguard]
  · intro force hcase hpush
    have hloop := pushLoop_all_ok git s.branches hpush
    by_cases hemp : s.branches.isEmpty
    · have : s.branches = [] := List.isEmpty_iff.mp hemp
      simp [runSubmitPushPhase, hemp, this]
    · rcases hcase with hf | ⟨hl', hr'⟩
      · subst hf
        simp [runSubmitPushPhase, hemp, hloop]
      · have hguard : checkBaseSynced git s = none := by
          by_cases hrem : git.remoteBranchExists "origin" s.base
          · simp [checkBaseSynced, hrem, hl', hr']
          · simp [checkBaseSynced, hrem]
        cases force with
        | true => simp [runSubmitPushPhase, hemp, hloop]
        | false => simp [runSubmitPushPhase, hemp, hguard, hloop]

/-- Witness for C7 at concrete inputs: a one-branch stack whose base is
behind origin by 2 commits (guard fires, no push), and the same stack
with equal SHAs (pushes proceed). -/
theorem submit_base_behind_guard_witness :
    (let s : Stack := { version := 1, name := "w7", base := "main", created := 0,
                        updated := 0, branches := [NewBranch "feat"] }
     let behind : SubmitGit :=
       { remoteBranchExists := fun _ _ => true,
         shaOf := fun ref => if ref = "origin/main" then Except.ok "r1" else Except.ok "l1",
         isAncestor := fun a b => a = "l1" ∧ b = "r1",
         commitCount := fun _ _ => 2,
         pushErr := fun _ _ _ => none }
     let synced : SubmitGit :=
       { remoteBranchExists := fun _ _ => true,
         shaOf := fun _ => Except.ok "l1",
         isAncestor := fun _ _ => false,
         commitCount := fun _ _ => 0,
         pushErr := fun _ _ _ => none }
     (runSubmitPushPhase behind false s = ([], some (baseBehindMsg "main" 2)) ∧
      baseBehindMsg "main" 2 =
        "base branch main is 2 commit(s) behind origin; run 'stk sync' first (use --force to submit anyway)") ∧
     runSubmitPushPhase synced false s = ([SubmitEvent.push "feat"], none)) := by
  refine ⟨⟨?_, rfl⟩, ?_⟩
  · exact (submit_base_behind_guard _ _ "l1" "r1").1 (by decide) rfl rfl rfl
      (by decide) (by decide)
  · exact (submit_base_behind_guard _ _ "l1" "r1").2 false
      (Or.inr ⟨rfl, rfl⟩) (by intro b _; rfl)

/-- C6: one iteration of the sync merged-branch loop, when the merged
branch has an immediate child carrying a PR, issues exactly one
`Retarget` — of that child's PR, to the merged branch's predecessor (the
base when the merged branch is first) — strictly before the
`RemoveBranch` call, and the resulting stack has the merged branch
removed. -/
theorem sync_retarget_before_remove (deleteMerged : Bool) (now : Nat) (s : Stack)
    (branchName : String) (idx : Nat) (child : Branch) (p : PRMeta)
    (hfind : findBranchIdx s.branches branchName = some idx)
    (hchild : s.branches.get? (idx + 1) = some child)
    (hpr : child.pr = some p) (hnum : 0 < p.number) :
    processOneMerged deleteMerged true now s branchName =
      ((removeBranch s branchName now).stack,
       SyncEvent.retarget p.number
           (if 0 < idx then (s.branches.getD (idx - 1) (NewBranch "")).name else s.base)
         :: SyncEvent.removeCall branchName
         :: (if deleteMerged then [SyncEvent.deleteLocal branchName] else [])) ∧
    (removeBranch s branchName now).stack.branches = removeAt idx s.branches := by
  have hlt : idx + 1 < s.branches.length := by
    rw [List.get?_eq_getElem?] at hchild
    exact (List.getElem?_eq_some.mp hchild).1
  have hget : s.branches[idx + 1] = child := by
    rw [List.get?_eq_getElem?] at hchild
    exact (List.getElem?_eq_some.mp hchild).2
  have hdrop : s.branches.drop (idx + 1) = child :: s.branches.drop (idx + 2) := by
    rw [List.drop_eq_getElem_cons hlt, hget]
  have htail := downstreamRetargets_past_child
    (if 0 < idx then (s.branches.getD (idx - 1) (NewBranch "")).name else s.base)
    idx (s.branches.drop (idx + 2)) (idx + 2) child.name (by omega)
  constructor
  · simp only [processOneMerged, hfind]
    rw [hdrop]
    simp [downstreamRetargets, hpr, hnum]
    simpa using htail
  · simp [removeBranch, hfind]

/-- C4 (amended): `Save` persists via plain in-place `os.WriteFile` —
its primitive steps contain no rename and no fsync; a completed save
leaves exactly the new marshalled bytes at the stack path, and an
interrupted one leaves the old contents, an empty (truncated) file, or
the new contents. -/
theorem save_in_place_characterization (gitDir : String) (s : Stack)
    (data : String) (fs0 : FileSys) :
    (∀ src dst, FsOp.renameFile src dst ∉ saveOps gitDir s data) ∧
    (∀ p, FsOp.fsyncFile p ∉ saveOps gitDir s data) ∧
    runFsOps fs0 (saveOps gitDir s data) (stackPath gitDir s.name) = some data ∧
    (∀ j, runFsOps fs0 ((saveOps gitDir s data).take j) (stackPath gitDir s.name)
            = fs0 (stackPath gitDir s.name) ∨
          runFsOps fs0 ((saveOps gitDir s data).take j) (stackPath gitDir s.name)
            = some "" ∨
          runFsOps fs0 ((saveOps gitDir s data).take j) (stackPath gitDir s.name)
            = some data) := by
  refine ⟨?_, ?_, ?_, ?_⟩
  · intro src dst h
    simp [saveOps] at h
  · intro p h
    simp [saveOps] at h
  · simp [saveOps, runFsOps, applyFsOp]
  · intro j
    match j with
    | 0 => left; rfl
    | 1 => left; rfl
    | 2 => right; left; simp [saveOps, runFsOps, applyFsOp]
    | (n + 3) =>
      right; right
      have h : (saveOps gitDir s data).take (n + 3) = saveOps gitDir s data := by
        apply List.take_of_length_le
        simp [saveOps]
      rw [h]
      simp [saveOps, runFsOps, applyFsOp]

/-! ## Lemmas about the simulated Git and the rebase engine -/

theorem lookupRef_setRef (k v n : String) :
    ∀ r : List (String × String),
      lookupRef (setRef r k v) n = if n = k then some v else lookupRef r n := by
  intro r
  induction r with
  | nil =>
    by_cases h : k = n
    · subst h; simp [setRef, lookupRef]
    · simp [setRef, lookupRef, h, Ne.symm h]
  | cons hd tl ih =>
    obtain ⟨k', w⟩ := hd
    by_cases h1 : k' = k
    · subst h1
      by_cases h2 : k' = n
      · subst h2; simp [setRef, lookupRef]
      · simp [setRef, lookupRef, h2, Ne.symm h2]
    · by_cases h2 : k' = n
      · subst h2
        simp [setRef, lookupRef, h1]
      · simp [setRef, lookupRef, h1, h2, ih]

theorem lookupRef_setRef_isSome (k v n : String) (r : List (String × String))
    (h : (lookupRef r n).isSome = true) :
    (lookupRef (setRef r k v) n).isSome = true := by
  rw [lookupRef_setRef]
  by_cases hn : n = k <;> simp [hn, h]

theorem checkoutSilent_refs (g : GitSim) (b : String) :
    (g.checkoutSilent b).refs = g.refs := by
  unfold GitSim.checkoutSilent
  split <;> rfl

theorem checkoutSilent_rebaseLog (g : GitSim) (b : String) :
    (g.checkoutSilent b).rebaseLog = g.rebaseLog := by
  unfold GitSim.checkoutSilent
  split <;> rfl

theorem shaOf_ok_iff (g : GitSim) (n v : String) :
    g.shaOf n = Except.ok v ↔ lookupRef g.refs n = some v := by
  unfold GitSim.shaOf
  cases lookupRef g.refs n <;> simp

theorem checkoutSilent_opt_refs (c : Prop) [Decidable c] (x : GitSim) (b : String) :
    (if c then x.checkoutSilent b else x).refs = x.refs := by
  split
  · exact checkoutSilent_refs x b
  · rfl

theorem checkoutSilent_opt_rebaseLog (c : Prop) [Decidable c] (x : GitSim) (b : String) :
    (if c then x.checkoutSilent b else x).rebaseLog = x.rebaseLog := by
  split
  · exact checkoutSilent_rebaseLog x b
  · rfl

theorem checkoutSilent_optr_refs (c : Prop) [Decidable c] (x : GitSim) (b : String) :
    (if c then x else x.checkoutSilent b).refs = x.refs := by
  split
  · rfl
  · exact checkoutSilent_refs x b

theorem checkoutSilent_optr_rebaseLog (c : Prop) [Decidable c] (x : GitSim) (b : String) :
    (if c then x else x.checkoutSilent b).rebaseLog = x.rebaseLog := by
  split
  · rfl
  · exact checkoutSilent_rebaseLog x b

/-- The rebase loop never removes a ref: any name with a SHA before the
loop still has one after it. -/
theorem rebaseLoop_isSome (n : String) :
    ∀ (bs : List Branch) (g : GitSim) (prev : String),
      (lookupRef g.refs n).isSome = true →
      (lookupRef (rebaseLoop g prev bs).1.refs n).isSome = true := by
  intro bs
  induction bs with
  | nil => intro g prev h; exact h
  | cons b rest ih =>
    intro g prev h
    by_cases hbud : g.successBudget = 0
    · simp [rebaseLoop, GitSim.rebaseBranchOnto, hbud, h]
    · simp only [rebaseLoop, GitSim.rebaseBranchOnto, hbud, if_false, if_true]
      exact ih _ _ (lookupRef_setRef_isSome _ _ _ _ h)

/-- With fewer successes available than branches, the loop reports
failure. -/
theorem rebaseLoop_fail :
    ∀ (bs : List Branch) (g : GitSim) (prev : String),
      g.successBudget < bs.length → (rebaseLoop g prev bs).2 = false := by
  intro bs
  induction bs with
  | nil => intro g prev h; simp at h
  | cons b rest ih =>
    intro g prev h
    by_cases hbud : g.successBudget = 0
    · simp [rebaseLoop, GitSim.rebaseBranchOnto, hbud]
    · simp only [rebaseLoop, GitSim.rebaseBranchOnto, hbud, if_false, if_true]
      apply ih
      simp only [List.length_cons] at h
      show g.successBudget - 1 < rest.length
      omega

/-- With enough successes for every branch, the loop succeeds and logs
exactly one rebase per branch, onto its predecessor. -/
theorem rebaseLoop_success :
    ∀ (bs : List Branch) (g : GitSim) (prev : String),
      bs.length ≤ g.successBudget →
      (rebaseLoop g prev bs).2 = true ∧
      (rebaseLoop g prev bs).1.rebaseLog =
        g.rebaseLog ++ expectedRebases prev (bs.map (·.name)) := by
  intro bs
  induction bs with
  | nil => intro g prev _; simp [rebaseLoop, expectedRebases]
  | cons b rest ih =>
    intro g prev h
    have hbud : ¬(g.successBudget = 0) := by
      simp only [List.length_cons] at h
      omega
    simp only [rebaseLoop, GitSim.rebaseBranchOnto, hbud, if_false, if_true]
    have hrec := ih
      { g with refs := setRef g.refs b.name (g.newSha b.name prev),
               current := b.name,
               successBudget := g.successBudget - 1,
               rebaseLog := g.rebaseLog ++ [(b.name, prev)] }
      b.name
      (by
        simp only [List.length_cons] at h
        show rest.length ≤ g.successBudget - 1
        omega)
    refine ⟨hrec.1, ?_⟩
    rw [hrec.2]
    simp [expectedRebases, List.append_assoc]

/-- One step of the reset loop. -/
theorem snapshotResets_cons (base : String) (q : String × String)
    (rest : List (String × String)) (g : GitSim) :
    snapshotResets base (q :: rest) g =
      snapshotResets base rest (if q.1 = base then g else g.resetBranchToSHA q.1 q.2) := by
  unfold snapshotResets
  rw [List.foldl_cons]

/-- Resets leave refs outside the reset key set untouched. -/
theorem snapshotResets_notmem (base n : String) :
    ∀ (pairs : List (String × String)) (g : GitSim),
      n ∉ pairs.map Prod.fst →
      lookupRef (snapshotResets base pairs g).refs n = lookupRef g.refs n := by
  intro pairs
  induction pairs with
  | nil => intro g _; rfl
  | cons q rest ih =>
    intro g hn
    have hq : n ≠ q.1 := by
      intro h; exact hn (by simp [h])
    have hrest : n ∉ rest.map Prod.fst := by
      intro h; exact hn (by simp [h])
    rw [snapshotResets_cons]
    by_cases hb : q.1 = base
    · rw [if_pos hb]
      exact ih g hrest
    · rw [if_neg hb, ih _ hrest]
      unfold GitSim.resetBranchToSHA
      split
      · rw [lookupRef_setRef, if_neg hq]
      · rfl

/-- Every non-base pair of a snapshot with distinct keys and live refs
is restored to its captured SHA by the reset loop. -/
theorem snapshotResets_restores (base : String) :
    ∀ (pairs : List (String × String)) (g : GitSim),
      (pairs.map Prod.fst).Nodup →
      (∀ p ∈ pairs, (lookupRef g.refs p.1).isSome = true) →
      ∀ p ∈ pairs, p.1 ≠ base →
        lookupRef (snapshotResets base pairs g).refs p.1 = some p.2 := by
  intro pairs
  induction pairs with
  | nil => intro g _ _ p hp; simp at hp
  | cons q rest ih =>
    intro g hnodup hlive p hp hpb
    have hnodup' : (rest.map Prod.fst).Nodup := by
      simp only [List.map_cons, List.nodup_cons] at hnodup
      exact hnodup.2
    have hqrest : q.1 ∉ rest.map Prod.fst := by
      simp only [List.map_cons, List.nodup_cons] at hnodup
      exact hnodup.1
    rw [snapshotResets_cons]
    rcases List.mem_cons.mp hp with h1 | h2
    · subst h1
      rw [if_neg hpb]
      have hguard := hlive p (by simp)
      rw [snapshotResets_notmem base p.1 rest _ hqrest]
      unfold GitSim.resetBranchToSHA
      rw [if_pos hguard]
      simp [lookupRef_setRef]
    · by_cases hqb : q.1 = base
      · rw [if_pos hqb]
        exact ih g hnodup' (fun p' hp' => hlive p' (by simp [hp'])) p h2 hpb
      · rw [if_neg hqb]
        apply ih _ hnodup'
        · intro p' hp'
          have := hlive p' (by simp [hp'])
          unfold GitSim.resetBranchToSHA
          split
          · exact lookupRef_setRef_isSome _ _ _ _ this
          · exact this
        · exact h2
        · exact hpb

/-- C1: atomic rebase with rollback.  Over a simulated Git whose
`rebase_branch_onto` succeeds `successBudget` times and then fails, for
a well-formed stack (distinct branch names, base not among them, every
ref known to Git, no snapshot pending): if the budget `k` is smaller
than the number of branches `N`, the engine errors, the snapshot is
cleared from the stack, and every stack branch's SHA equals its
pre-snapshot SHA (the base is exempt and untouched by rollback); if
`k ≥ N`, the engine succeeds with the snapshot cleared, having rebased
every branch onto its predecessor in order. -/
theorem rebase_engine_atomic (stk : Stack) (g : GitSim)
    (hsnap : stk.snapshot = none)
    (hnodup : (stk.branches.map (·.name)).Nodup)
    (hbase : stk.base ∉ stk.branches.map (·.name))
    (hbref : (lookupRef g.refs stk.base).isSome = true)
    (hrefs : ∀ b ∈ stk.branches, (lookupRef g.refs b.name).isSome = true) :
    (g.successBudget < stk.branches.length →
      (rebaseStack stk g).err.isSome = true ∧
      (rebaseStack stk g).stack.snapshot = none ∧
      ∀ b ∈ stk.branches,
        lookupRef (rebaseStack stk g).git.refs b.name = lookupRef g.refs b.name) ∧
    (stk.branches.length ≤ g.successBudget →
      (rebaseStack stk g).err = none ∧
      (rebaseStack stk g).stack.snapshot = none ∧
      (rebaseStack stk g).git.rebaseLog =
        g.rebaseLog ++ expectedRebases stk.base (stk.branches.map (·.name))) := by
  by_cases hne : stk.branches.isEmpty
  · have hnil : stk.branches = [] := List.isEmpty_iff.mp hne
    constructor
    · intro hk
      rw [hnil] at hk
      simp at hk
    · intro _
      simp [rebaseStack, hne, hnil, hsnap, expectedRebases]
  · -- the snapshot succeeds: every lookup resolves
    obtain ⟨vb, hvb'⟩ := Option.isSome_iff_exists.mp hbref
    have hvb : g.shaOf stk.base = Except.ok vb := (shaOf_ok_iff g _ _).mpr hvb'
    have hall : ∀ b ∈ stk.branches, ∃ v, g.shaOf b.name = Except.ok v := by
      intro b hb
      obtain ⟨v, hv⟩ := Option.isSome_iff_exists.mp (hrefs b hb)
      exact ⟨v, (shaOf_ok_iff g _ _).mpr hv⟩
    obtain ⟨pairs, hcoll, hkeys, hvals⟩ := collectRefs_ok g.shaOf stk.branches hall
    have hTS : takeSnapshot stk g.shaOf =
        ⟨{ stk with snapshot := some ⟨(stk.base, vb) :: pairs⟩ },
         [{ stk with snapshot := some ⟨(stk.base, vb) :: pairs⟩ }], none⟩ := by
      simp [takeSnapshot, hvb, hcoll]
    constructor
    · -- failure: k < N, the loop fails and rollback restores every branch
      intro hk
      have hlr2 : (rebaseLoop g stk.base stk.branches).2 = false :=
        rebaseLoop_fail stk.branches g stk.base hk
      refine ⟨?_, ?_, ?_⟩
      · simp [rebaseStack, hne, hTS, rollbackStack, GitSim.rebaseAbort,
          clearSnapshot, hlr2]
      · simp [rebaseStack, hne, hTS, rollbackStack, GitSim.rebaseAbort,
          clearSnapshot, hlr2]
      · intro b hb
        have hmemkey : b.name ∈ pairs.map Prod.fst := by
          rw [hkeys]
          exact List.mem_map.mpr ⟨b, hb, rfl⟩
        obtain ⟨p, hp, hpname⟩ := List.mem_map.mp hmemkey
        have hglook : lookupRef g.refs p.1 = some p.2 :=
          (shaOf_ok_iff g _ _).mp (hvals p hp)
        have hpairsnodup : (pairs.map Prod.fst).Nodup := by
          rw [hkeys]; exact hnodup
        have hlive : ∀ q ∈ pairs,
            (lookupRef (rebaseLoop g stk.base stk.branches).1.refs q.1).isSome = true := by
          intro q hq
          have hq' : lookupRef g.refs q.1 = some q.2 :=
            (shaOf_ok_iff g _ _).mp (hvals q hq)
          exact rebaseLoop_isSome q.1 stk.branches g stk.base (by simp [hq'])
        have hbn_mem : b.name ∈ stk.branches.map (·.name) :=
          List.mem_map.mpr ⟨b, hb, rfl⟩
        have hpnb : p.1 ≠ stk.base := by
          rw [hpname]
          intro h
          exact hbase (h ▸ hbn_mem)
        have hrestore :=
          snapshotResets_restores stk.base pairs (rebaseLoop g stk.base stk.branches).1
            hpairsnodup hlive p hp hpnb
        have hskip : snapshotResets stk.base ((stk.base, vb) :: pairs)
              (rebaseLoop g stk.base stk.branches).1 =
            snapshotResets stk.base pairs (rebaseLoop g stk.base stk.branches).1 := by
          rw [snapshotResets_cons, if_pos rfl]
        rw [hpname] at hrestore hglook
        simp [rebaseStack, hne, hTS, rollbackStack, GitSim.rebaseAbort,
          clearSnapshot, hlr2, checkoutSilent_opt_refs, checkoutSilent_optr_refs,
          hskip, hrestore, hglook]
    · -- success: k ≥ N, each branch is rebased onto its predecessor
      intro hk
      have hsucc := rebaseLoop_success stk.branches g stk.base hk
      refine ⟨?_, ?_, ?_⟩
      · simp [rebaseStack, hne, hTS, clearSnapshot, hsucc.1]
      · simp [rebaseStack, hne, hTS, clearSnapshot, hsucc.1]
      · simp [rebaseStack, hne, hTS, clearSnapshot, hsucc.1,
          checkoutSilent_opt_rebaseLog, checkoutSilent_optr_rebaseLog, hsucc.2]

/-- Witness for C1: stack `main ⊢ [x, y]` over a Git that allows one
successful rebase (k = 1 < N = 2); the engine errors, clears the
snapshot, and every branch SHA is restored. -/
theorem rebase_engine_atomic_witness :
    (let stk : Stack := { version := 1, name := "w1", base := "main", created := 0,
                          updated := 0, branches := [NewBranch "x", NewBranch "y"] }
     let g : GitSim := { refs := [("main", "m0"), ("x", "x0"), ("y", "y0")],
                         current := "x", successBudget := 1,
                         newSha := fun b o => b ++ "~" ++ o }
     stk.snapshot = none ∧
     (stk.branches.map (·.name)).Nodup ∧
     stk.base ∉ stk.branches.map (·.name) ∧
     (lookupRef g.refs stk.base).isSome = true ∧
     g.successBudget < stk.branches.length ∧
     ((rebaseStack stk g).err.isSome = true ∧
      (rebaseStack stk g).stack.snapshot = none ∧
      ∀ b ∈ stk.branches,
        lookupRef (rebaseStack stk g).git.refs b.name = lookupRef g.refs b.name)) := by
  refine ⟨rfl, by decide, by decide, rfl, by decide, ?_⟩
  have h := rebase_engine_atomic
    { version := 1, name := "w1", base := "main", created := 0, updated := 0,
      branches := [NewBranch "x", NewBranch "y"] }
    { refs := [("main", "m0"), ("x", "x0"), ("y", "y0")], current := "x",
      successBudget := 1, newSha := fun b o => b ++ "~" ++ o }
    rfl (by decide) (by decide) rfl (by decide)
  exact h.1 (by decide)

/-- C5 (amended): the Git driver does expose `IsRebaseInProgress`
(true iff `.git/rebase-merge` or `.git/rebase-apply` exists), but the
rebase engine never consults it: even with a rebase in progress the
engine proceeds — it persists a snapshot, rebases every branch, and
returns success rather than refusing to start. -/
theorem rebase_engine_ignores_in_progress (stk : Stack) (g : GitSim)
    (hprog : g.isRebaseInProgress = true)
    (hbref : (lookupRef g.refs stk.base).isSome = true)
    (hrefs : ∀ b ∈ stk.branches, (lookupRef g.refs b.name).isSome = true)
    (hn : 0 < stk.branches.length)
    (hbudget : stk.branches.length ≤ g.successBudget) :
    (rebaseStack stk g).err = none ∧
    (rebaseStack stk g).git.rebaseLog =
      g.rebaseLog ++ expectedRebases stk.base (stk.branches.map (·.name)) ∧
    (∃ s ∈ (rebaseStack stk g).saves, s.snapshot.isSome = true) := by
  have hne : ¬stk.branches.isEmpty = true := by
    intro h
    rw [List.isEmpty_iff.mp h] at hn
    simp at hn
  obtain ⟨vb, hvb'⟩ := Option.isSome_iff_exists.mp hbref
  have hvb : g.shaOf stk.base = Except.ok vb := (shaOf_ok_iff g _ _).mpr hvb'
  have hall : ∀ b ∈ stk.branches, ∃ v, g.shaOf b.name = Except.ok v := by
    intro b hb
    obtain ⟨v, hv⟩ := Option.isSome_iff_exists.mp (hrefs b hb)
    exact ⟨v, (shaOf_ok_iff g _ _).mpr hv⟩
  obtain ⟨pairs, hcoll, hkeys, hvals⟩ := collectRefs_ok g.shaOf stk.branches hall
  have hTS : takeSnapshot stk g.shaOf =
      ⟨{ stk with snapshot := some ⟨(stk.base, vb) :: pairs⟩ },
       [{ stk with snapshot := some ⟨(stk.base, vb) :: pairs⟩ }], none⟩ := by
    simp [takeSnapshot, hvb, hcoll]
  have hsucc := rebaseLoop_success stk.branches g stk.base hbudget
  refine ⟨?_, ?_, ?_⟩
  · simp [rebaseStack, hne, hTS, clearSnapshot, hsucc.1]
  · simp [rebaseStack, hne, hTS, clearSnapshot, hsucc.1,
      checkoutSilent_opt_rebaseLog, checkoutSilent_optr_rebaseLog, hsucc.2]
  · refine ⟨{ stk with snapshot := some ⟨(stk.base, vb) :: pairs⟩ }, ?_, rfl⟩
    simp [rebaseStack, hne, hTS, clearSnapshot, hsucc.1]

/-- C5 (counterexample): with `.git/rebase-merge` present
(`IsRebaseInProgress` = true) the engine does not refuse: on a
one-branch stack it returns success (no error), performs the rebase of
`x` onto `main`, and saves a snapshot — contradicting "performs no
snapshot, rebases no branch, and returns an error". -/
theorem rebase_in_progress_not_refused :
    (let stk : Stack := { version := 1, name := "c5", base := "main", created := 0,
                          updated := 0, branches := [NewBranch "x"] }
     let g : GitSim := { refs := [("main", "m0"), ("x", "x0")], current := "main",
                         successBudget := 1, newSha := fun b o => b ++ "~" ++ o,
                         rebaseMergeDir := true }
     g.isRebaseInProgress = true ∧
     (rebaseStack stk g).err = none ∧
     (rebaseStack stk g).git.rebaseLog = [("x", "main")] ∧
     (∃ s ∈ (rebaseStack stk g).saves, s.snapshot.isSome = true)) := by
  refine ⟨rfl, rfl, rfl, by decide⟩

/-- Witness for C5's amended theorem at a concrete in-progress state. -/
theorem rebase_engine_ignores_in_progress_witness :
    (let stk : Stack := { version := 1, name := "w5", base := "main", created := 0,
                          updated := 0, branches := [NewBranch "x"] }
     let g : GitSim := { refs := [("main", "m0"), ("x", "x0")], current := "main",
                         successBudget := 3, newSha := fun b o => b ++ "~" ++ o,
                         rebaseApplyDir := true }
     g.isRebaseInProgress = true ∧
     (lookupRef g.refs stk.base).isSome = true ∧
     0 < stk.branches.length ∧
     stk.branches.length ≤ g.successBudget ∧
     ((rebaseStack stk g).err = none ∧
      (rebaseStack stk g).git.rebaseLog =
        g.rebaseLog ++ expectedRebases stk.base (stk.branches.map (·.name)) ∧
      (∃ s ∈ (rebaseStack stk g).saves, s.snapshot.isSome = true))) := by
  refine ⟨rfl, rfl, by decide, by decide, ?_⟩
  exact rebase_engine_ignores_in_progress _ _ rfl rfl (by decide) (by decide) (by decide)

/-- Witness for C6: stack `main ⊢ [a, b, c]` with PRs #1/#2/#3,
processing merged `a` with `--delete-merged`: the trace is retarget of
#2 to `main`, then the removal, then the local delete. -/
theorem sync_retarget_before_remove_witness :
    (let s : Stack := { version := 1, name := "w6", base := "main", created := 0,
                        updated := 0,
                        branches := [{ name := "a", pr := some ⟨1, "", "merged", ""⟩ },
                                     { name := "b", pr := some ⟨2, "", "open", ""⟩ },
                                     { name := "c", pr := some ⟨3, "", "open", ""⟩ }] }
     findBranchIdx s.branches "a" = some 0 ∧
     s.branches.get? 1 = some { name := "b", pr := some ⟨2, "", "open", ""⟩ } ∧
     (0 : Nat) < 2 ∧
     processOneMerged true true 9 s "a" =
       ((removeBranch s "a" 9).stack,
        [SyncEvent.retarget 2 "main", SyncEvent.removeCall "a",
         SyncEvent.deleteLocal "a"]) ∧
     (removeBranch s "a" 9).stack.branches = removeAt 0 s.branches) := by
  have h := sync_retarget_before_remove true 9
    { version := 1, name := "w6", base := "main", created := 0, updated := 0,
      branches := [{ name := "a", pr := some ⟨1, "", "merged", ""⟩ },
                   { name := "b", pr := some ⟨2, "", "open", ""⟩ },
                   { name := "c", pr := some ⟨3, "", "open", ""⟩ }] }
    "a" 0 { name := "b", pr := some ⟨2, "", "open", ""⟩ } ⟨2, "", "open", ""⟩
    rfl rfl rfl (by decide)
  exact ⟨rfl, rfl, by decide, by simpa using h.1, h.2⟩

end Stk
